import Mathlib

/-!
Shallow embedding of the document routes of the knowledge-base backend
(`backend/routes/documents.js`, `backend/routes/search.js`) over an abstract
relational store, together with proofs about versioning, access control,
sharing and search guard behaviour.

The store tables mirror the SQL schema from the repository README:
`documents`, `document_shares` (UNIQUE on `(document_id, user_id)`),
`document_versions`, `users`.  Machine state is a `Store` value; each route
handler becomes a pure function from the store (plus the request data) to a
response and a new store.
-/

/-- Share permission values, `permission TEXT CHECK (permission IN ('view','edit'))`. -/
inductive Permission where
  | view
  | edit
deriving Repr, DecidableEq

/-- A row of the `documents` table.  Timestamps are abstracted to `Nat`. -/
structure Document where
  id : Nat
  title : String
  content : String
  is_public : Bool
  author_id : Nat
  version : Nat
  created_at : Nat
  updated_at : Nat
deriving Repr, DecidableEq

/-- A row of the `document_shares` table (the surrogate `id` and `created_at`
columns are dropped; the logical key is `(document_id, user_id)`). -/
structure Share where
  document_id : Nat
  user_id : Nat
  permission : Permission
  shared_by : Nat
deriving Repr, DecidableEq

/-- A row of the `document_versions` table. -/
structure VersionSnapshot where
  document_id : Nat
  content : String
  title : String
  version_number : Nat
  created_by : Nat
  change_summary : String
deriving Repr, DecidableEq

/-- The columns of the `users` table that the document routes read. -/
structure UserRow where
  id : Nat
  email : String
  first_name : String
  last_name : String
deriving Repr, DecidableEq

/-- The backing relational store. -/
structure Store where
  documents : List Document
  shares : List Share
  versions : List VersionSnapshot
  users : List UserRow
deriving Repr, DecidableEq

/-- `supabase.from('documents').select(...).eq('id', id).single()`. -/
def findDocument (s : Store) (id : Nat) : Option Document :=
  s.documents.find? (fun d => d.id == id)

/-- `supabase.from('document_shares').select('permission')
      .eq('document_id', id).eq('user_id', userId).single()`. -/
def findShare (s : Store) (docId userId : Nat) : Option Share :=
  s.shares.find? (fun sh => sh.document_id == docId && sh.user_id == userId)

/-- Response of `GET /documents/:id`: either the document row (with the
optional `userPermission` field attached on the private shared path), or one
of the error statuses the handler returns. -/
inductive DocResponse where
  | ok (doc : Document) (userPermission : Option Permission)
  | notFound
  | authRequired
  | forbidden
deriving Repr, DecidableEq

/-- `GET /documents/:id` (route uses `optionalAuth`, so the caller is an
`Option Nat`).  Translated from `router.get('/:id')` in
`backend/routes/documents.js`: 404 when no row, public documents returned to
anyone, then 401 for anonymous callers, author short-circuit, then the share
lookup deciding 403 versus attaching `userPermission`. -/
def getDocument (s : Store) (user : Option Nat) (id : Nat) : DocResponse :=
  match findDocument s id with
  | none => .notFound
  | some document =>
    if document.is_public then .ok document none
    else
      match user with
      | none => .authRequired
      | some uid =>
        if document.author_id == uid then .ok document none
        else
          match findShare s id uid with
          | none => .forbidden
          | some share => .ok document (some share.permission)

/-- Parsed body of `PUT /documents/:id` (`updateDocumentSchema`: all three
fields optional). -/
structure DocumentUpdate where
  title : Option String
  content : Option String
  isPublic : Option Bool
deriving Repr, DecidableEq

/-- Zod validation of the update body: when `title` is present it must have
`min(1).max(200)`; `content` is any string, `isPublic` any boolean. -/
def validUpdate (u : DocumentUpdate) : Bool :=
  match u.title with
  | none => true
  | some t => 1 ≤ t.length && t.length ≤ 200

/-- The document row written by an accepted `PUT /documents/:id`:
`{...updates, updated_at: now, version: document.version + 1}` — absent
optional fields leave the stored column unchanged.  The zod key for
visibility is the camelCase `isPublic`, which matches no column of the
`documents` table (the column is `is_public`; the create route maps it
explicitly, this route does not), so an accepted update never changes
`is_public`; a payload that does carry `isPublic` is rejected whole by the
store (handled in `putDocument`), hence this function is only reached with
`u.isPublic = none`. -/
def applyUpdates (d : Document) (u : DocumentUpdate) (now : Nat) : Document :=
  { d with
    title := u.title.getD d.title
    content := u.content.getD d.content
    updated_at := now
    version := d.version + 1 }

/-- JavaScript `updates.title || document.title`: the incoming title unless it
is absent or the empty string (falsy). -/
def jsTitleOr (t : Option String) (fallback : String) : String :=
  match t with
  | none => fallback
  | some t => if t == "" then fallback else t

/-- Response of `PUT /documents/:id`; `serverError` is the catch-all 500 the
route answers when the store rejects the update statement. -/
inductive UpdateResponse where
  | ok (doc : Document)
  | invalidInput
  | notFound
  | forbidden
  | serverError
deriving Repr, DecidableEq

/-- The edit-permission check of `PUT /documents/:id`: author, or a share row
for `(document, caller)` whose permission is `edit`. -/
def hasEditPermission (s : Store) (d : Document) (uid : Nat) : Bool :=
  d.author_id == uid ||
    match findShare s d.id uid with
    | some share => share.permission == Permission.edit
    | none => false

/-- `PUT /documents/:id` (route uses `authenticateToken`, so the caller `uid`
is always present).  Translated from `router.put('/:id')`: zod-parse the body
(400 on failure), 404 when no row, 403 without edit permission.  The update
then spreads the parsed body into the payload; when it carries the camelCase
zod key `isPublic` the payload names a column the `documents` table does not
have, the store rejects the whole statement, the handler throws at
`if (error) throw error` before the version insert, and the catch answers
500 — nothing is written.  Otherwise the row is written, and a
`document_versions` row with `change_summary = 'Content updated'` is appended
exactly when the JavaScript guard
`updates.content && updates.content !== document.content` holds — note the
truthiness test, under which an empty-string `content` never creates a
snapshot. -/
def putDocument (s : Store) (uid id : Nat) (u : DocumentUpdate) (now : Nat) :
    UpdateResponse × Store :=
  if validUpdate u then
    match findDocument s id with
    | none => (.notFound, s)
    | some document =>
      if hasEditPermission s document uid then
        match u.isPublic with
        | some _ => (.serverError, s)
        | none =>
          let updated := applyUpdates document u now
          let docs := s.documents.map (fun d =>
            if d.id == id then updated else d)
          let versions :=
            match u.content with
            | some c =>
              if c != "" && c != document.content then
                s.versions ++ [{ document_id := id
                                 content := c
                                 title := jsTitleOr u.title document.title
                                 version_number := document.version + 1
                                 created_by := uid
                                 change_summary := "Content updated" }]
              else s.versions
            | none => s.versions
          (.ok updated, { s with documents := docs, versions := versions })
      else (.forbidden, s)
  else (.invalidInput, s)

/-- Descending order on `updated_at`, the `order('updated_at', desc)` of the
list and search queries. -/
def updatedDesc (a b : Document) : Prop := b.updated_at ≤ a.updated_at

instance : DecidableRel updatedDesc :=
  fun a b => Nat.decLe b.updated_at a.updated_at

instance : IsTotal Document updatedDesc :=
  ⟨fun a b => Nat.le_total b.updated_at a.updated_at⟩

instance : IsTrans Document updatedDesc :=
  ⟨fun _ _ _ hab hbc => Nat.le_trans hbc hab⟩

/-- Descending order on `version_number`, the
`order('version_number', desc)` of the versions query. -/
def versionDesc (a b : VersionSnapshot) : Prop :=
  b.version_number ≤ a.version_number

instance : DecidableRel versionDesc :=
  fun a b => Nat.decLe b.version_number a.version_number

instance : IsTotal VersionSnapshot versionDesc :=
  ⟨fun a b => Nat.le_total b.version_number a.version_number⟩

instance : IsTrans VersionSnapshot versionDesc :=
  ⟨fun _ _ _ hab hbc => Nat.le_trans hbc hab⟩

/-- `GET /documents` (route uses `authenticateToken`).  Translated from
`router.get('/')`: the select embeds `document_shares!inner(permission)` — an
inner join, so only documents having at least one share row at all survive —
and then filters with
`or(author_id.eq.uid, document_shares.user_id.eq.uid)`, ordered by
`updated_at` descending. -/
def listDocuments (s : Store) (uid : Nat) : List Document :=
  List.insertionSort updatedDesc
    (s.documents.filter (fun d =>
      s.shares.any (fun sh => sh.document_id == d.id) &&
        (d.author_id == uid ||
          s.shares.any (fun sh => sh.document_id == d.id && sh.user_id == uid))))

/-- Response of `GET /documents/:id/versions`. -/
inductive VersionsResponse where
  | ok (versions : List VersionSnapshot)
  | notFound
  | authRequired
  | forbidden
deriving Repr, DecidableEq

/-- The access check inside `router.get('/:id/versions')`:
`document.is_public || author || a share row of any permission exists`,
where the share lookup uses the route parameter `id`. -/
def versionsAccess (s : Store) (d : Document) (uid id : Nat) : Bool :=
  d.is_public || d.author_id == uid || (findShare s id uid).isSome

/-- `GET /documents/:id/versions`.  The route is declared with
`authenticateToken`.  Modelled from the spec: the bearer-token middleware
(`backend/middleware/auth.js`, not present in the sources) rejects requests
without a valid token with 401 before the handler runs, so the caller is an
`Option Nat` and `none` yields `authRequired`.  The handler body is
translated from `router.get('/:id/versions')`: 404 when no row, the
`versionsAccess` check, then all `document_versions` rows of the document
ordered by `version_number` descending. -/
def getVersions (s : Store) (user : Option Nat) (id : Nat) : VersionsResponse :=
  match user with
  | none => .authRequired
  | some uid =>
    match findDocument s id with
    | none => .notFound
    | some document =>
      if versionsAccess s document uid id then
        .ok (List.insertionSort versionDesc
          (s.versions.filter (fun v => v.document_id == id)))
      else .forbidden

/-- Response of `POST /documents/:id/share`; `serverError` is the catch-all
500 the route answers when the store rejects the upsert statement. -/
inductive ShareResponse where
  | ok (share : Share)
  | invalidInput
  | notFoundDoc
  | notFoundUser
  | forbidden
  | serverError
deriving Repr, DecidableEq

/-- `supabase.from('document_shares').upsert(row)` with no `onConflict`
option: the conflict target defaults to the primary key `id`, the payload
carries no `id` so a fresh default is generated and `ON CONFLICT (id)` never
fires — the statement is a plain insert.  When a row for
`(document_id, user_id)` already exists, the insert violates the schema's
`UNIQUE(document_id, user_id)` and the store rejects it (`none`); otherwise
the row is appended. -/
def upsertShare (shares : List Share) (row : Share) : Option (List Share) :=
  if shares.any (fun sh =>
      sh.document_id == row.document_id && sh.user_id == row.user_id) then
    none
  else some (shares ++ [row])

/-- `POST /documents/:id/share` (route uses `authenticateToken`).  Translated
from `router.post('/:id/share')`: 400 when `userEmail` is falsy or
`permission` is not `view`/`edit`, 404 when no document row, 403 when the
caller is not the author, 404 when no user has the given email, then the
upsert on `(document_id, user_id)`. -/
def shareDocument (s : Store) (uid id : Nat) (userEmail permission : String) :
    ShareResponse × Store :=
  if userEmail == "" || (permission != "view" && permission != "edit") then
    (.invalidInput, s)
  else
    match findDocument s id with
    | none => (.notFoundDoc, s)
    | some document =>
      if document.author_id != uid then (.forbidden, s)
      else
        match s.users.find? (fun u => u.email == userEmail) with
        | none => (.notFoundUser, s)
        | some target =>
          let row : Share :=
            { document_id := id
              user_id := target.id
              permission := if permission == "edit" then .edit else .view
              shared_by := uid }
          match upsertShare s.shares row with
          | none => (.serverError, s)
          | some shares₂ => (.ok row, { s with shares := shares₂ })

/-- Response of `DELETE /documents/:id/shares/:userId`. -/
inductive RevokeResponse where
  | ok
  | notFound
  | forbidden
deriving Repr, DecidableEq

/-- `DELETE /documents/:id/shares/:userId` (route uses `authenticateToken`).
Translated from `router.delete('/:id/shares/:userId')`: 404 when no document
row, 403 when the caller is not the author, then an unconditional delete of
the rows matching `(document_id, user_id)` — deleting zero rows is not an
error. -/
def revokeShare (s : Store) (uid id userId : Nat) : RevokeResponse × Store :=
  match findDocument s id with
  | none => (.notFound, s)
  | some document =>
    if document.author_id != uid then (.forbidden, s)
    else
      (.ok, { s with
        shares := s.shares.filter (fun sh =>
          !(sh.document_id == id && sh.user_id == userId)) })

/-- First character index of `needle` in `hay`, JavaScript
`String.prototype.indexOf` over character lists. -/
def idxOfList (hay needle : List Char) (i : Nat) : Option Nat :=
  match hay with
  | [] => if needle.isEmpty then some i else none
  | _ :: t =>
    if hay.take needle.length = needle then some i else idxOfList t needle (i + 1)

/-- Case-insensitive first match position,
`content.toLowerCase().indexOf(q.toLowerCase())`. -/
def indexOfCI (hay needle : String) : Option Nat :=
  idxOfList hay.toLower.toList needle.toLower.toList 0

/-- Case-insensitive containment, `hay.toLowerCase().includes(q.toLowerCase())`
(equivalently: `indexOf` finds a position). -/
def containsCI (hay needle : String) : Bool :=
  (indexOfCI hay needle).isSome

/-- JavaScript `s.substring(start, stop)` by character positions. -/
def substringJS (s : String) (start stop : Nat) : String :=
  String.mk ((s.toList.drop start).take (stop - start))

/-- One entry of the search response: the document plus the highlight fields
the handler computes. -/
structure SearchResult where
  doc : Document
  titleMatch : Bool
  contentMatch : Bool
  snippet : String
deriving Repr, DecidableEq

/-- The highlight computation of `backend/routes/search.js` for one document:
`titleMatch`, `contentMatch`, and a snippet of 50 characters of context on
each side of the first case-insensitive content occurrence. -/
def mkSearchResult (q : String) (doc : Document) : SearchResult :=
  let titleMatch := containsCI doc.title q
  let contentMatch := containsCI doc.content q
  let snippet :=
    match indexOfCI doc.content q with
    | some index =>
      let start := index - 50
      let stop := min doc.content.length (index + q.length + 50)
      "..." ++ substringJS doc.content start stop ++ "..."
    | none => ""
  { doc := doc, titleMatch := titleMatch, contentMatch := contentMatch,
    snippet := snippet }

/-- The `reduce` of `backend/routes/search.js`: walk the fetched rows, skip a
document whose id is already in the accumulator, otherwise append its
highlighted result. -/
def dedupResults (q : String) (docs : List Document) (acc : List SearchResult) :
    List SearchResult :=
  match docs with
  | [] => acc
  | doc :: rest =>
    if acc.any (fun r => r.doc.id == doc.id) then dedupResults q rest acc
    else dedupResults q rest (acc ++ [mkSearchResult q doc])

/-- `GET /search?q=` (route uses `authenticateToken`).  Translated from
`backend/routes/search.js`: the guard `if (!q || q.length < 2) return []`
answers an absent, empty or one-character query with an empty list before any
store query; otherwise fetch the documents matching
`(title ilike %q% or content ilike %q%) and (author or shared or public)`
ordered by `updated_at` descending, capped at 20 rows, then deduplicate by id
and attach highlights. -/
def searchDocuments (s : Store) (uid : Nat) (q : Option String) :
    List SearchResult :=
  match q with
  | none => []
  | some qs =>
    if qs == "" || qs.length < 2 then []
    else
      let visible := fun (d : Document) =>
        d.author_id == uid ||
          s.shares.any (fun sh => sh.document_id == d.id && sh.user_id == uid) ||
          d.is_public
      let fetched :=
        (List.insertionSort updatedDesc
          (s.documents.filter (fun d =>
            (containsCI d.title qs && visible d) ||
              (containsCI d.content qs && visible d)))).take 20
      dedupResults qs fetched []

/-- All share rows for the key `(docId, userId)` — the rows constrained by
`UNIQUE(document_id, user_id)` in the schema. -/
def sharesFor (shares : List Share) (docId userId : Nat) : List Share :=
  shares.filter (fun sh => sh.document_id == docId && sh.user_id == userId)

/-- The schema invariant `UNIQUE(document_id, user_id)` on `document_shares`:
no two distinct rows of the table share a key. -/
def uniqueShareKeys (shares : List Share) : Prop :=
  shares.Pairwise (fun a b =>
    ¬(a.document_id = b.document_id ∧ a.user_id = b.user_id))

instance (shares : List Share) : Decidable (uniqueShareKeys shares) :=
  List.instDecidablePairwise shares

/-- Two members of a key-unique share table with equal keys are the same row. -/
theorem key_unique_mem_eq {shares : List Share} (h : uniqueShareKeys shares)
    {a b : Share} (ha : a ∈ shares) (hb : b ∈ shares)
    (hk : a.document_id = b.document_id ∧ a.user_id = b.user_id) : a = b := by
  induction shares with
  | nil => cases ha
  | cons x t ih =>
    rcases List.pairwise_cons.mp h with ⟨hx, ht⟩
    rcases List.mem_cons.mp ha with rfl | ha₂ <;>
      rcases List.mem_cons.mp hb with rfl | hb₂
    · rfl
    · exact absurd hk (hx b hb₂)
    · exact absurd ⟨hk.1.symm, hk.2.symm⟩ (hx a ha₂)
    · exact ih ht ha₂ hb₂

/-- C1 (code bug): a metadata-only update toggling `is_public` — the very
scenario the claim and the spec state — does not increment `version`: the
route spreads the zod camelCase key `isPublic` into the update payload, the
`documents` table has no such column, the store rejects the statement and
the route answers 500 with nothing written. -/
theorem putDocument_isPublic_update_errors :
    putDocument ⟨[⟨1, "T", "c", false, 1, 1, 0, 0⟩], [], [], []⟩ 1 1
        ⟨none, none, some true⟩ 5 =
      (UpdateResponse.serverError,
        ⟨[⟨1, "T", "c", false, 1, 1, 0, 0⟩], [], [], []⟩) := rfl

/-- C2: edit permission holds exactly for the author or the holder of an
`edit` share; `is_public` plays no role; and a valid PUT by a non-author
without an edit share answers 403 and leaves the store unchanged. -/
theorem canEdit_author_or_edit_share (s : Store) (uid id now : Nat)
    (u : DocumentUpdate) (d : Document)
    (huniq : uniqueShareKeys s.shares) :
    (hasEditPermission s d uid = true ↔
      d.author_id = uid ∨
        ∃ sh ∈ s.shares, sh.document_id = d.id ∧ sh.user_id = uid ∧
          sh.permission = Permission.edit) ∧
    (∀ b, hasEditPermission s { d with is_public := b } uid =
      hasEditPermission s d uid) ∧
    (findDocument s id = some d → validUpdate u = true → d.author_id ≠ uid →
      (∀ sh ∈ s.shares, sh.document_id = id → sh.user_id = uid →
        sh.permission ≠ Permission.edit) →
      putDocument s uid id u now = (.forbidden, s)) := by
  refine ⟨⟨?_, ?_⟩, ?_, ?_⟩
  · intro h
    unfold hasEditPermission at h
    rcases Bool.or_eq_true_iff.mp h with hauthor | hshare
    · exact Or.inl (eq_of_beq hauthor)
    · rcases hf : findShare s d.id uid with _ | share
      · rw [hf] at hshare
        exact absurd hshare (by simp)
      · rw [hf] at hshare
        have hf₀ : s.shares.find? (fun sh =>
            sh.document_id == d.id && sh.user_id == uid) = some share := hf
        have hkey := @List.find?_some Share
          (fun sh => sh.document_id == d.id && sh.user_id == uid) share
          s.shares hf₀
        have hmem := @List.mem_of_find?_eq_some Share
          (fun sh => sh.document_id == d.id && sh.user_id == uid) share
          s.shares hf₀
        rcases Bool.and_eq_true_iff.mp hkey with ⟨h₁, h₂⟩
        exact Or.inr ⟨share, hmem, eq_of_beq h₁, eq_of_beq h₂,
          eq_of_beq hshare⟩
  · intro h
    unfold hasEditPermission
    rcases h with h | ⟨sh, hmem, hdoc, hu, hperm⟩
    · simp [h]
    · rcases hf : findShare s d.id uid with _ | share
      · have hf₀ : s.shares.find? (fun x =>
            x.document_id == d.id && x.user_id == uid) = none := hf
        have := List.find?_eq_none.mp hf₀ sh hmem
        exact absurd (by simp [hdoc, hu]) this
      · have hf₀ : s.shares.find? (fun x =>
            x.document_id == d.id && x.user_id == uid) = some share := hf
        have hkey := @List.find?_some Share
          (fun x => x.document_id == d.id && x.user_id == uid) share
          s.shares hf₀
        have hmem₂ := @List.mem_of_find?_eq_some Share
          (fun x => x.document_id == d.id && x.user_id == uid) share
          s.shares hf₀
        rcases Bool.and_eq_true_iff.mp hkey with ⟨h₁, h₂⟩
        have : share = sh := key_unique_mem_eq huniq hmem₂ hmem
          ⟨(eq_of_beq h₁).trans hdoc.symm, (eq_of_beq h₂).trans hu.symm⟩
        subst this
        simp [hperm]
  · intro b
    rfl
  · intro hdfound hval hne hnoedit
    have hd₀ : s.documents.find? (fun x => x.id == id) = some d := hdfound
    have hid : d.id = id :=
      eq_of_beq (@List.find?_some Document (fun x => x.id == id) d
        s.documents hd₀)
    have hperm : hasEditPermission s d uid = false := by
      unfold hasEditPermission
      have hauthor : (d.author_id == uid) = false := by
        simp [hne]
      rcases hf : findShare s d.id uid with _ | share
      · simp [hauthor, hf]
      · have hf₀ : s.shares.find? (fun x =>
            x.document_id == d.id && x.user_id == uid) = some share := hf
        have hkey := @List.find?_some Share
          (fun x => x.document_id == d.id && x.user_id == uid) share
          s.shares hf₀
        have hmem := @List.mem_of_find?_eq_some Share
          (fun x => x.document_id == d.id && x.user_id == uid) share
          s.shares hf₀
        rcases Bool.and_eq_true_iff.mp hkey with ⟨h₁, h₂⟩
        have hnedit := hnoedit share hmem ((eq_of_beq h₁).trans hid)
          (eq_of_beq h₂)
        simp [hauthor, hf, hnedit]
    simp [putDocument, hval, hdfound, hperm]

/-- Witness for C2: a caller holding only a `view` share gets 403 from PUT
and the store does not change. -/
theorem canEdit_author_or_edit_share_witness :
    putDocument ⟨[⟨1, "T", "c", false, 1, 1, 0, 0⟩],
        [⟨1, 2, Permission.edit, 1⟩, ⟨1, 3, Permission.view, 1⟩], [], []⟩ 3 1
        ⟨none, some "x", none⟩ 7 =
      (UpdateResponse.forbidden, ⟨[⟨1, "T", "c", false, 1, 1, 0, 0⟩],
        [⟨1, 2, Permission.edit, 1⟩, ⟨1, 3, Permission.view, 1⟩], [], []⟩) := by
  have h := canEdit_author_or_edit_share
    ⟨[⟨1, "T", "c", false, 1, 1, 0, 0⟩],
      [⟨1, 2, Permission.edit, 1⟩, ⟨1, 3, Permission.view, 1⟩], [], []⟩ 3 1 7
    ⟨none, some "x", none⟩ ⟨1, "T", "c", false, 1, 1, 0, 0⟩ (by decide)
  exact h.2.2 (by rfl) (by rfl) (by decide) (by decide)

/-- C3 (amended): read-by-id answers 404 when no row matches; a public
document succeeds for every caller with no `userPermission`; on a private
document an anonymous caller gets 401, a non-author without a share gets 403,
the author gets the row without `userPermission`, and a non-author holding a
share gets the row with that share permission attached — the permission is
only ever attached on the private shared path. -/
theorem getDocument_spec (s : Store) (user : Option Nat) (id : Nat) :
    (findDocument s id = none → getDocument s user id = .notFound) ∧
    (∀ d, findDocument s id = some d → d.is_public = true →
      getDocument s user id = .ok d none) ∧
    (∀ d, findDocument s id = some d → d.is_public = false → user = none →
      getDocument s user id = .authRequired) ∧
    (∀ d uid, findDocument s id = some d → user = some uid →
      d.is_public = false → d.author_id = uid →
      getDocument s user id = .ok d none) ∧
    (∀ d uid, findDocument s id = some d → user = some uid →
      d.is_public = false → d.author_id ≠ uid → findShare s id uid = none →
      getDocument s user id = .forbidden) ∧
    (∀ d uid sh, findDocument s id = some d → user = some uid →
      d.is_public = false → d.author_id ≠ uid → findShare s id uid = some sh →
      getDocument s user id = .ok d (some sh.permission)) := by
  refine ⟨?_, ?_, ?_, ?_, ?_, ?_⟩
  · intro h
    simp [getDocument, h]
  · intro d hd hpub
    simp [getDocument, hd, hpub]
  · intro d hd hpub huser
    simp [getDocument, hd, hpub, huser]
  · intro d uid hd huser hpub hauthor
    simp [getDocument, hd, hpub, huser, hauthor]
  · intro d uid hd huser hpub hauthor hshare
    simp [getDocument, hd, hpub, huser, hauthor, hshare]
  · intro d uid sh hd huser hpub hauthor hshare
    simp [getDocument, hd, hpub, huser, hauthor, hshare]

/-- Witness for C3: on a private document, a caller holding a `view` share
receives the row with `userPermission = view`. -/
theorem getDocument_spec_witness :
    getDocument ⟨[⟨1, "T", "c", false, 1, 1, 0, 0⟩],
        [⟨1, 2, Permission.view, 1⟩], [], []⟩ (some 2) 1 =
      DocResponse.ok ⟨1, "T", "c", false, 1, 1, 0, 0⟩ (some Permission.view) := by
  have h := getDocument_spec ⟨[⟨1, "T", "c", false, 1, 1, 0, 0⟩],
      [⟨1, 2, Permission.view, 1⟩], [], []⟩ (some 2) 1
  exact h.2.2.2.2.2 ⟨1, "T", "c", false, 1, 1, 0, 0⟩ 2
    ⟨1, 2, Permission.view, 1⟩ (by rfl) rfl rfl (by decide) (by rfl)

/-- Counterexample for C3 as stated: on a public document a non-author caller
who holds a Share-Registry row still receives the response without any
permission attached. -/
theorem getDocument_public_share_not_attached :
    getDocument ⟨[⟨1, "T", "c", true, 1, 1, 0, 0⟩],
        [⟨1, 2, Permission.view, 1⟩], [], []⟩ (some 2) 1 =
      DocResponse.ok ⟨1, "T", "c", true, 1, 1, 0, 0⟩ none ∧
    (⟨1, "T", "c", true, 1, 1, 0, 0⟩ : Document).author_id ≠ 2 ∧
    findShare ⟨[⟨1, "T", "c", true, 1, 1, 0, 0⟩],
        [⟨1, 2, Permission.view, 1⟩], [], []⟩ 1 2 =
      some ⟨1, 2, Permission.view, 1⟩ := by
  refine ⟨rfl, by decide, rfl⟩

/-- C4 (code bug): the list route's `document_shares!inner` join drops every
document that has no share row at all, so a document owned by the caller with
an empty Share Registry does not appear — against both the route's own
comment ("user's documents + shared documents") and the spec's union. -/
theorem listDocuments_inner_join_drops_owned :
    (⟨1, "Mine", "c", false, 1, 1, 0, 0⟩ : Document).author_id = 1 ∧
    listDocuments ⟨[⟨1, "Mine", "c", false, 1, 1, 0, 0⟩], [], [], []⟩ 1 = [] := by
  exact ⟨rfl, rfl⟩

/-- C5 (code bug): re-sharing the same document to the same user does not
overwrite the grant: the upsert's conflict target defaults to the primary
key, which is absent from the payload, so the second request trips the
`UNIQUE(document_id, user_id)` violation — the route answers 500 and the
Share Registry keeps the first grant instead of the later permission. -/
theorem shareDocument_reupsert_conflict_errors :
    (shareDocument (shareDocument
        ⟨[⟨1, "T", "c", false, 1, 1, 0, 0⟩], [], [], [⟨2, "b@x.com", "B", "C"⟩]⟩
        1 1 "b@x.com" "view").2 1 1 "b@x.com" "edit").1 =
      ShareResponse.serverError ∧
    sharesFor ((shareDocument (shareDocument
        ⟨[⟨1, "T", "c", false, 1, 1, 0, 0⟩], [], [], [⟨2, "b@x.com", "B", "C"⟩]⟩
        1 1 "b@x.com" "view").2 1 1 "b@x.com" "edit").2).shares 1 2 =
      [⟨1, 2, Permission.view, 1⟩] :=
  ⟨rfl, rfl⟩

/-- C6 (amended): the versions route requires a bearer token, so anonymous
callers get 401 even for public documents; for authenticated callers access
holds exactly under the document-read rule (public, author, or any share),
and on success the response lists the document's snapshots ordered by
`version_number` descending. -/
theorem getVersions_spec (s : Store) (user : Option Nat) (id : Nat) :
    (user = none → getVersions s user id = .authRequired) ∧
    (∀ uid, user = some uid → findDocument s id = none →
      getVersions s user id = .notFound) ∧
    (∀ uid d, user = some uid → findDocument s id = some d →
      (versionsAccess s d uid id = true ↔
        d.is_public = true ∨ d.author_id = uid ∨
          ∃ sh ∈ s.shares, sh.document_id = id ∧ sh.user_id = uid)) ∧
    (∀ uid d, user = some uid → findDocument s id = some d →
      versionsAccess s d uid id = false →
      getVersions s user id = .forbidden) ∧
    (∀ uid d, user = some uid → findDocument s id = some d →
      versionsAccess s d uid id = true →
      ∃ l, getVersions s user id = .ok l ∧
        l.Perm (s.versions.filter (fun v => v.document_id == id)) ∧
        l.Sorted versionDesc) := by
  refine ⟨?_, ?_, ?_, ?_, ?_⟩
  · intro h
    simp [getVersions, h]
  · intro uid huser hd
    simp [getVersions, huser, hd]
  · intro uid d huser hd
    unfold versionsAccess
    constructor
    · intro h
      rcases Bool.or_eq_true_iff.mp h with h | h
      · rcases Bool.or_eq_true_iff.mp h with h | h
        · exact Or.inl h
        · exact Or.inr (Or.inl (eq_of_beq h))
      · rcases hf : findShare s id uid with _ | sh
        · rw [hf] at h
          simp at h
        · have hf₀ : s.shares.find? (fun x =>
              x.document_id == id && x.user_id == uid) = some sh := hf
          have hkey := @List.find?_some Share
            (fun x => x.document_id == id && x.user_id == uid) sh s.shares hf₀
          have hmem := @List.mem_of_find?_eq_some Share
            (fun x => x.document_id == id && x.user_id == uid) sh s.shares hf₀
          rcases Bool.and_eq_true_iff.mp hkey with ⟨h₁, h₂⟩
          exact Or.inr (Or.inr ⟨sh, hmem, eq_of_beq h₁, eq_of_beq h₂⟩)
    · intro h
      rcases h with h | h | ⟨sh, hmem, h₁, h₂⟩
      · simp [h]
      · simp [h]
      · rcases hf : findShare s id uid with _ | sh₂
        · have hf₀ : s.shares.find? (fun x =>
              x.document_id == id && x.user_id == uid) = none := hf
          have := List.find?_eq_none.mp hf₀ sh hmem
          exact absurd (by simp [h₁, h₂]) this
        · simp [hf]
  · intro uid d huser hd hacc
    simp [getVersions, huser, hd, hacc]
  · intro uid d huser hd hacc
    refine ⟨List.insertionSort versionDesc
      (s.versions.filter (fun v => v.document_id == id)), ?_, ?_, ?_⟩
    · simp [getVersions, huser, hd, hacc]
    · exact List.perm_insertionSort versionDesc _
    · exact List.sorted_insertionSort versionDesc _

/-- Witness for C6: an authenticated non-author without a share is denied the
version list of a private document. -/
theorem getVersions_spec_witness :
    getVersions ⟨[⟨1, "T", "c", false, 1, 2, 0, 0⟩], [],
        [⟨1, "c", "T", 1, 1, "Initial version"⟩], []⟩ (some 2) 1 =
      VersionsResponse.forbidden := by
  have h := getVersions_spec ⟨[⟨1, "T", "c", false, 1, 2, 0, 0⟩], [],
      [⟨1, "c", "T", 1, 1, "Initial version"⟩], []⟩ (some 2) 1
  exact h.2.2.2.1 2 ⟨1, "T", "c", false, 1, 2, 0, 0⟩ rfl (by rfl) (by rfl)

/-- Counterexample for C6 as stated: the parent document is public — so
`canView` holds for an anonymous caller — yet the versions route answers 401
to the anonymous caller instead of the snapshot list. -/
theorem getVersions_anonymous_public_rejected :
    (⟨1, "T", "c", true, 1, 1, 0, 0⟩ : Document).is_public = true ∧
    findDocument ⟨[⟨1, "T", "c", true, 1, 1, 0, 0⟩], [],
        [⟨1, "c", "T", 1, 1, "Initial version"⟩], []⟩ 1 =
      some ⟨1, "T", "c", true, 1, 1, 0, 0⟩ ∧
    getVersions ⟨[⟨1, "T", "c", true, 1, 1, 0, 0⟩], [],
        [⟨1, "c", "T", 1, 1, "Initial version"⟩], []⟩ none 1 =
      VersionsResponse.authRequired := ⟨rfl, rfl, rfl⟩

/-- C7: revoking a share by the author always succeeds — also when no such
share exists, in which case the store is unchanged — no share for the key
survives, and repeating the revoke succeeds and changes nothing further. -/
theorem revokeShare_idempotent (s : Store) (uid id userId : Nat) (d : Document)
    (hd : findDocument s id = some d) (hauth : d.author_id = uid) :
    (revokeShare s uid id userId).1 = .ok ∧
    findShare (revokeShare s uid id userId).2 id userId = none ∧
    (findShare s id userId = none → (revokeShare s uid id userId).2 = s) ∧
    revokeShare (revokeShare s uid id userId).2 uid id userId =
      (.ok, (revokeShare s uid id userId).2) := by
  have hne : (d.author_id != uid) = false := by simp [hauth]
  have hstate : (revokeShare s uid id userId).2 =
      { s with shares := s.shares.filter (fun sh =>
        !(sh.document_id == id && sh.user_id == userId)) } := by
    simp [revokeShare, hd, hne]
  refine ⟨?_, ?_, ?_, ?_⟩
  · simp [revokeShare, hd, hne]
  · rw [hstate]
    unfold findShare
    apply List.find?_eq_none.mpr
    intro x hx
    intro hcon
    have h₂ := (List.mem_filter.mp hx).2
    rw [hcon] at h₂
    simp at h₂
  · intro hnone
    have hnone₀ : s.shares.find? (fun sh =>
        sh.document_id == id && sh.user_id == userId) = none := hnone
    rw [hstate]
    have hfilter : s.shares.filter (fun sh =>
        !(sh.document_id == id && sh.user_id == userId)) = s.shares := by
      apply List.filter_eq_self.mpr
      intro sh hmem
      have h₂ := List.find?_eq_none.mp hnone₀ sh hmem
      cases hb : (sh.document_id == id && sh.user_id == userId) with
      | false => rfl
      | true => exact absurd hb h₂
    rw [hfilter]
  · have hd₂ : findDocument (revokeShare s uid id userId).2 id = some d := by
      rw [hstate]
      exact hd
    generalize hX : (revokeShare s uid id userId).2 = X at hstate hd₂ ⊢
    have hstep : revokeShare X uid id userId =
        (.ok, { X with shares := X.shares.filter (fun sh =>
          !(sh.document_id == id && sh.user_id == userId)) }) := by
      simp [revokeShare, hd₂, hne]
    rw [hstep]
    have hshares : X.shares.filter (fun sh =>
        !(sh.document_id == id && sh.user_id == userId)) = X.shares := by
      rw [hstate]
      simp [List.filter_filter, Bool.and_self]
    rw [hshares]

/-- Witness for C7: revoking a share that does not exist answers success and
leaves the concrete store untouched. -/
theorem revokeShare_idempotent_witness :
    (revokeShare ⟨[⟨1, "T", "c", false, 1, 1, 0, 0⟩],
        [⟨1, 3, Permission.view, 1⟩], [], []⟩ 1 1 2).1 = RevokeResponse.ok ∧
    (revokeShare ⟨[⟨1, "T", "c", false, 1, 1, 0, 0⟩],
        [⟨1, 3, Permission.view, 1⟩], [], []⟩ 1 1 2).2 =
      ⟨[⟨1, "T", "c", false, 1, 1, 0, 0⟩], [⟨1, 3, Permission.view, 1⟩], [], []⟩ := by
  have h := revokeShare_idempotent ⟨[⟨1, "T", "c", false, 1, 1, 0, 0⟩],
      [⟨1, 3, Permission.view, 1⟩], [], []⟩ 1 1 2
    ⟨1, "T", "c", false, 1, 1, 0, 0⟩ (by rfl) rfl
  exact ⟨h.1, h.2.2.1 (by rfl)⟩

/-- C8: a search whose query is absent or shorter than two characters answers
the empty list as a success, and the answer does not depend on the store. -/
theorem search_short_query_guard (s : Store) (uid : Nat) (q : Option String)
    (h : q = none ∨ ∃ qs, q = some qs ∧ qs.length < 2) :
    searchDocuments s uid q = [] ∧
      ∀ s₂ : Store, searchDocuments s uid q = searchDocuments s₂ uid q := by
  rcases h with rfl | ⟨qs, rfl, hlen⟩
  · exact ⟨rfl, fun s₂ => rfl⟩
  · have hg : (qs == "" || decide (qs.length < 2)) = true := by
      simp [hlen]
    constructor
    · simp [searchDocuments, hg]
    · intro s₂
      simp [searchDocuments, hg]

/-- Witness for C8: a one-character query yields no results even though the
store holds a matching public document. -/
theorem search_short_query_guard_witness :
    searchDocuments ⟨[⟨1, "alpha", "alpha", true, 1, 1, 0, 0⟩], [], [], []⟩ 1
        (some "a") = [] :=
  (search_short_query_guard
    ⟨[⟨1, "alpha", "alpha", true, 1, 1, 0, 0⟩], [], [], []⟩ 1 (some "a")
    (Or.inr ⟨"a", rfl, by decide⟩)).1

/-- C9: an accepted update whose `content` field is the empty string — present
and different from the stored non-empty content — still increments `version`
by 1 but appends no snapshot: the JavaScript guard treats the falsy empty
string like an absent field.  Acceptance entails `isPublic` is absent from
the body, since a payload carrying it is rejected by the store (unknown
column) before anything is written. -/
theorem put_empty_content_version_no_snapshot (s : Store) (uid id now : Nat)
    (u : DocumentUpdate) (d : Document)
    (hd : findDocument s id = some d)
    (hperm : hasEditPermission s d uid = true)
    (hval : validUpdate u = true)
    (hpub : u.isPublic = none)
    (hc : u.content = some "")
    (hne : d.content ≠ "") :
    (putDocument s uid id u now).1 = .ok (applyUpdates d u now) ∧
    (applyUpdates d u now).version = d.version + 1 ∧
    u.content ≠ some d.content ∧
    (putDocument s uid id u now).2.versions = s.versions := by
  refine ⟨?_, ?_, ?_, ?_⟩
  · simp [putDocument, hval, hd, hperm, hpub]
  · simp [applyUpdates]
  · rw [hc]
    intro hcon
    injection hcon with h
    exact hne h.symm
  · simp [putDocument, hval, hd, hperm, hpub, hc]

/-- Witness for C9: updating the concrete document with empty content leaves
the single initial snapshot as the whole ledger. -/
theorem put_empty_content_version_no_snapshot_witness :
    (putDocument ⟨[⟨1, "T", "old", false, 1, 1, 0, 0⟩], [],
        [⟨1, "old", "T", 1, 1, "Initial version"⟩], []⟩ 1 1
        ⟨none, some "", none⟩ 4).2.versions =
      [⟨1, "old", "T", 1, 1, "Initial version"⟩] := by
  have h := put_empty_content_version_no_snapshot
    ⟨[⟨1, "T", "old", false, 1, 1, 0, 0⟩], [],
      [⟨1, "old", "T", 1, 1, "Initial version"⟩], []⟩ 1 1 4
    ⟨none, some "", none⟩ ⟨1, "T", "old", false, 1, 1, 0, 0⟩
    (by rfl) (by rfl) (by rfl) rfl rfl (by decide)
  exact h.2.2.2

/-- C10: a public document is returned to every caller — anonymous included —
and the response never carries `userPermission`, even when the caller holds a
share: the public branch returns before the Share Registry is consulted. -/
theorem getDocument_public_no_permission (s : Store) (user : Option Nat)
    (id : Nat) (d : Document)
    (hd : findDocument s id = some d) (hp : d.is_public = true) :
    getDocument s user id = .ok d none := by
  simp [getDocument, hd, hp]

/-- Witness for C10: the concrete public document is served to a share-holder
and to an anonymous caller, in both cases without a permission field. -/
theorem getDocument_public_no_permission_witness :
    getDocument ⟨[⟨1, "T", "c", true, 1, 1, 0, 0⟩],
        [⟨1, 2, Permission.edit, 1⟩], [], []⟩ (some 2) 1 =
      DocResponse.ok ⟨1, "T", "c", true, 1, 1, 0, 0⟩ none ∧
    getDocument ⟨[⟨1, "T", "c", true, 1, 1, 0, 0⟩],
        [⟨1, 2, Permission.edit, 1⟩], [], []⟩ none 1 =
      DocResponse.ok ⟨1, "T", "c", true, 1, 1, 0, 0⟩ none :=
  ⟨getDocument_public_no_permission ⟨[⟨1, "T", "c", true, 1, 1, 0, 0⟩],
      [⟨1, 2, Permission.edit, 1⟩], [], []⟩ (some 2) 1
      ⟨1, "T", "c", true, 1, 1, 0, 0⟩ (by rfl) rfl,
    getDocument_public_no_permission ⟨[⟨1, "T", "c", true, 1, 1, 0, 0⟩],
      [⟨1, 2, Permission.edit, 1⟩], [], []⟩ none 1
      ⟨1, "T", "c", true, 1, 1, 0, 0⟩ (by rfl) rfl⟩
